import Mathlib

set_option maxRecDepth 10000

/-!
Shallow embedding of the VTKLoader_ThreeJS decoding and triangulation
pipeline: the cell triangulation engine (`triangulateCell` in
src/utils/vtkUtils.ts), the XML mesh decoder's cell walk and
appended-data decoding (`VTULoader.parse` / `VTULoader.parseDataArray`),
and the legacy ASCII decoder (`VTKUnstructuredLoader.parse`).

Modelling conventions: JS numbers are integers (`Int`) — all numeric data
relevant to the verified properties is integral; byte buffers are
`List Nat`; a JS value that may be `undefined` is an `Option`; a JS
exception surfacing from a function is an explicit outcome (`Option.none`
or a `thrown` constructor).  Arrays are Lean lists; `push` is `++`.
-/

/-- Read the value at 0-based position `k` of a JS array (`a[k]`); every use in
the embedded source is guarded so that `k` is in bounds, hence the default is
never observed. -/
def vAt [Inhabited α] (cis : List α) (k : Nat) : α := cis.getD k default

/-- The six quad faces of a hexahedron used by the source (`hexFaces`). -/
def hexFaces : List (List Nat) := [[0,1,5,4],[1,2,6,5],[2,3,7,6],[3,0,4,7],[0,3,2,1],[4,5,6,7]]

/-- The three quad side faces of a wedge used by the source (`wedgeQuads`). -/
def wedgeQuads : List (List Nat) := [[0,1,4,3],[1,2,5,4],[2,0,3,5]]

/-- One quad face split into two triangles along the 0-2 diagonal, exactly as the
source does inside the hexahedron and wedge cases (`idx = face.map(...)`, then
push `idx[0],idx[1],idx[2]` and `idx[0],idx[2],idx[3]`). -/
def faceSplit [Inhabited α] (cis : List α) (face : List Nat) : List α :=
  let idx := face.map (fun id => vAt cis id)
  [vAt idx 0, vAt idx 1, vAt idx 2, vAt idx 0, vAt idx 2, vAt idx 3]

/-- The flat list of triangle indices that `triangulateCell` pushes onto the
output buffer for a given cell type and cell index list; a direct transcription
of the `switch` in src/utils/vtkUtils.ts.  The function is polymorphic in the
value type because the source never inspects the values it copies. -/
def triTriples [Inhabited α] (type : Int) (cis : List α) : List α :=
  if type = 5 then
    if 3 ≤ cis.length then [vAt cis 0, vAt cis 1, vAt cis 2] else []
  else if type = 7 then
    if 3 ≤ cis.length then
      (List.range' 1 (cis.length - 2)).flatMap (fun k => [vAt cis 0, vAt cis k, vAt cis (k+1)])
    else []
  else if type = 9 then
    if 4 ≤ cis.length then
      [vAt cis 0, vAt cis 1, vAt cis 2, vAt cis 0, vAt cis 2, vAt cis 3]
    else []
  else if type = 10 then
    if 4 ≤ cis.length then
      [vAt cis 0, vAt cis 1, vAt cis 2, vAt cis 0, vAt cis 2, vAt cis 3,
       vAt cis 0, vAt cis 3, vAt cis 1, vAt cis 1, vAt cis 3, vAt cis 2]
    else []
  else if type = 12 then
    if 8 ≤ cis.length then hexFaces.flatMap (faceSplit cis) else []
  else if type = 13 then
    if 6 ≤ cis.length then
      [vAt cis 0, vAt cis 1, vAt cis 2, vAt cis 3, vAt cis 5, vAt cis 4]
        ++ wedgeQuads.flatMap (faceSplit cis)
    else []
  else if type = 14 then
    if 5 ≤ cis.length then
      [vAt cis 0, vAt cis 1, vAt cis 2, vAt cis 0, vAt cis 2, vAt cis 3,
       vAt cis 0, vAt cis 1, vAt cis 4, vAt cis 1, vAt cis 2, vAt cis 4,
       vAt cis 2, vAt cis 3, vAt cis 4, vAt cis 3, vAt cis 0, vAt cis 4]
    else []
  else []

/-- Function `triangulateCell` from src/utils/vtkUtils.ts: appends the triangles for the
cell onto `indices` and returns the new buffer together with the triangle count
`(indices.length - initialLength) / 3`. -/
def triangulateCell [Inhabited α] (type : Int) (cellIndices indices : List α) :
    List α × Nat :=
  let res := indices ++ triTriples type cellIndices
  (res, (res.length - indices.length) / 3)

/-- Minimum arity of each supported VTK cell type (the length guard of each
`case` of the source's `switch`); 0 for unsupported type codes. -/
def minArity (type : Int) : Nat :=
  if type = 5 then 3 else if type = 7 then 3 else if type = 9 then 4
  else if type = 10 then 4 else if type = 12 then 8 else if type = 13 then 6
  else if type = 14 then 5 else 0

theorem flatMap_const_length (l : List β) (F : β → List α) (c : Nat)
    (h : ∀ x ∈ l, (F x).length = c) : (l.flatMap F).length = c * l.length := by
  induction l with
  | nil => simp
  | cons a t ih =>
      simp only [List.flatMap_cons, List.length_append, List.length_cons,
        h a (List.mem_cons_self a t), ih (fun x hx => h x (List.mem_cons_of_mem a hx))]
      ring

theorem triTriples_length_dvd [Inhabited α] (type : Int) (cis : List α) :
    3 ∣ (triTriples type cis).length := by
  unfold triTriples
  split_ifs
  · simp only [List.length_cons, List.length_nil]; omega
  · simp only [List.length_nil]; omega
  · rw [flatMap_const_length _ (fun k => [vAt cis 0, vAt cis k, vAt cis (k+1)]) 3
      (fun x _ => rfl)]
    exact Dvd.intro _ rfl
  · simp only [List.length_nil]; omega
  · simp only [List.length_cons, List.length_nil]; omega
  · simp only [List.length_nil]; omega
  · simp only [List.length_cons, List.length_nil]; omega
  · simp only [List.length_nil]; omega
  · rw [flatMap_const_length hexFaces (faceSplit cis) 6 (fun x _ => rfl)]
    omega
  · simp only [List.length_nil]; omega
  · rw [List.length_append, flatMap_const_length wedgeQuads (faceSplit cis) 6
      (fun x _ => rfl)]
    simp only [List.length_cons, List.length_nil]
    omega
  · simp only [List.length_nil]; omega
  · simp only [List.length_cons, List.length_nil]; omega
  · simp only [List.length_nil]; omega
  · simp only [List.length_nil]; omega

theorem triangulateCell_fst [Inhabited α] (type : Int) (cis ind : List α) :
    (triangulateCell type cis ind).1 = ind ++ triTriples type cis := rfl

theorem triangulateCell_snd [Inhabited α] (type : Int) (cis ind : List α) :
    (triangulateCell type cis ind).2 = (triTriples type cis).length / 3 := by
  simp [triangulateCell]

theorem triangulateCell_length [Inhabited α] (type : Int) (cis ind : List α) :
    (triangulateCell type cis ind).1.length
      = ind.length + 3 * (triangulateCell type cis ind).2 := by
  obtain ⟨m, hm⟩ := triTriples_length_dvd (α := α) type cis
  simp [triangulateCell, hm, Nat.mul_div_cancel_left]

theorem range'_fan_eq (cis : List Int) (m : Nat) :
    (List.range' 1 m).flatMap (fun k => [vAt cis 0, vAt cis k, vAt cis (k+1)])
      = (List.range m).flatMap (fun j => [vAt cis 0, vAt cis (j+1), vAt cis (j+2)]) := by
  induction m with
  | zero => rfl
  | succ n ih =>
      rw [List.range'_concat, List.range_succ, List.flatMap_append, List.flatMap_append, ih]
      have h1 : 1 + n = n + 1 := by omega
      have h2 : 1 + n + 1 = n + 2 := by omega
      simp [h1, h2]

/-- C2: for every supported cell type of the §4.1 table, given at least the
minimum arity, `triangulateCell` appends exactly the triples dictated by that
type's rule after the existing buffer contents (leaving them unaltered, and not
mutating the input list, which is inherent to the pure embedding), and returns
the number of triangles appended: triangle 1, polygon n-2 fan triples, quad 2,
tetrahedron 4, hexahedron 12, wedge 8, pyramid 6. -/
theorem triangulateCell_table_rules (cis buf : List Int) :
    (3 ≤ cis.length →
      triangulateCell 5 cis buf = (buf ++ [vAt cis 0, vAt cis 1, vAt cis 2], 1)) ∧
    (3 ≤ cis.length →
      triangulateCell 7 cis buf
        = (buf ++ (List.range (cis.length - 2)).flatMap
            (fun j => [vAt cis 0, vAt cis (j+1), vAt cis (j+2)]), cis.length - 2)) ∧
    (4 ≤ cis.length →
      triangulateCell 9 cis buf
        = (buf ++ [vAt cis 0, vAt cis 1, vAt cis 2, vAt cis 0, vAt cis 2, vAt cis 3], 2)) ∧
    (4 ≤ cis.length →
      triangulateCell 10 cis buf
        = (buf ++ [vAt cis 0, vAt cis 1, vAt cis 2, vAt cis 0, vAt cis 2, vAt cis 3,
                   vAt cis 0, vAt cis 3, vAt cis 1, vAt cis 1, vAt cis 3, vAt cis 2], 4)) ∧
    (8 ≤ cis.length →
      triangulateCell 12 cis buf
        = (buf ++ [vAt cis 0, vAt cis 1, vAt cis 5, vAt cis 0, vAt cis 5, vAt cis 4,
                   vAt cis 1, vAt cis 2, vAt cis 6, vAt cis 1, vAt cis 6, vAt cis 5,
                   vAt cis 2, vAt cis 3, vAt cis 7, vAt cis 2, vAt cis 7, vAt cis 6,
                   vAt cis 3, vAt cis 0, vAt cis 4, vAt cis 3, vAt cis 4, vAt cis 7,
                   vAt cis 0, vAt cis 3, vAt cis 2, vAt cis 0, vAt cis 2, vAt cis 1,
                   vAt cis 4, vAt cis 5, vAt cis 6, vAt cis 4, vAt cis 6, vAt cis 7], 12)) ∧
    (6 ≤ cis.length →
      triangulateCell 13 cis buf
        = (buf ++ [vAt cis 0, vAt cis 1, vAt cis 2, vAt cis 3, vAt cis 5, vAt cis 4,
                   vAt cis 0, vAt cis 1, vAt cis 4, vAt cis 0, vAt cis 4, vAt cis 3,
                   vAt cis 1, vAt cis 2, vAt cis 5, vAt cis 1, vAt cis 5, vAt cis 4,
                   vAt cis 2, vAt cis 0, vAt cis 3, vAt cis 2, vAt cis 3, vAt cis 5], 8)) ∧
    (5 ≤ cis.length →
      triangulateCell 14 cis buf
        = (buf ++ [vAt cis 0, vAt cis 1, vAt cis 2, vAt cis 0, vAt cis 2, vAt cis 3,
                   vAt cis 0, vAt cis 1, vAt cis 4, vAt cis 1, vAt cis 2, vAt cis 4,
                   vAt cis 2, vAt cis 3, vAt cis 4, vAt cis 3, vAt cis 0, vAt cis 4], 6)) := by
  refine ⟨fun h => ?_, fun h => ?_, fun h => ?_, fun h => ?_, fun h => ?_,
    fun h => ?_, fun h => ?_⟩
  · simp [triangulateCell, triTriples, h]
  · have e : triTriples 7 cis
        = (List.range (cis.length - 2)).flatMap
            (fun j => [vAt cis 0, vAt cis (j+1), vAt cis (j+2)]) := by
      rw [← range'_fan_eq]
      simp [triTriples, h]
    have hl : (triTriples (7:Int) cis).length = 3 * (cis.length - 2) := by
      rw [e, flatMap_const_length _ (fun j => [vAt cis 0, vAt cis (j+1), vAt cis (j+2)]) 3
        (fun x _ => rfl), List.length_range]
    show (buf ++ triTriples 7 cis, ((buf ++ triTriples 7 cis).length - buf.length) / 3) = _
    rw [List.length_append, hl, e]
    congr 1
    omega
  · simp [triangulateCell, triTriples, h]
  · simp [triangulateCell, triTriples, h]
  · simp [triangulateCell, triTriples, h, hexFaces, faceSplit, vAt]
  · simp [triangulateCell, triTriples, h, wedgeQuads, faceSplit, vAt]
  · simp [triangulateCell, triTriples, h]

/-- C2 witness: the table rules evaluated on a concrete 8-vertex cell list. -/
theorem triangulateCell_table_rules_witness :
    triangulateCell 5 ([0,1,2,3,4,5,6,7] : List Int) [9] = ([9,0,1,2], 1) ∧
    triangulateCell 7 ([0,1,2,3,4,5,6,7] : List Int) [9]
      = ([9,0,1,2, 0,2,3, 0,3,4, 0,4,5, 0,5,6, 0,6,7], 6) ∧
    triangulateCell 9 ([0,1,2,3,4,5,6,7] : List Int) [9] = ([9,0,1,2,0,2,3], 2) ∧
    triangulateCell 10 ([0,1,2,3,4,5,6,7] : List Int) [9]
      = ([9,0,1,2,0,2,3,0,3,1,1,3,2], 4) ∧
    triangulateCell 12 ([0,1,2,3,4,5,6,7] : List Int) [9]
      = ([9,0,1,5,0,5,4,1,2,6,1,6,5,2,3,7,2,7,6,3,0,4,3,4,7,0,3,2,0,2,1,4,5,6,4,6,7], 12) ∧
    triangulateCell 13 ([0,1,2,3,4,5,6,7] : List Int) [9]
      = ([9,0,1,2,3,5,4,0,1,4,0,4,3,1,2,5,1,5,4,2,0,3,2,3,5], 8) ∧
    triangulateCell 14 ([0,1,2,3,4,5,6,7] : List Int) [9]
      = ([9,0,1,2,0,2,3,0,1,4,1,2,4,2,3,4,3,0,4], 6) := by
  have T := triangulateCell_table_rules [0,1,2,3,4,5,6,7] [9]
  refine ⟨?_, ?_, ?_, ?_, ?_, ?_, ?_⟩
  · rw [T.1 (by decide)]; decide
  · rw [T.2.1 (by decide)]; decide
  · rw [T.2.2.1 (by decide)]; decide
  · rw [T.2.2.2.1 (by decide)]; decide
  · rw [T.2.2.2.2.1 (by decide)]; decide
  · rw [T.2.2.2.2.2.1 (by decide)]; decide
  · rw [T.2.2.2.2.2.2 (by decide)]; decide

/-- C3: a cell whose index list is shorter than its type's minimum arity, or
whose type code is not one of 5, 7, 9, 10, 12, 13, 14, contributes nothing: the
output buffer is returned unchanged with a triangle count of 0, and no error is
possible (the embedded function is total). -/
theorem triangulateCell_skips_malformed (type : Int) (cis buf : List Int)
    (h : (type ≠ 5 ∧ type ≠ 7 ∧ type ≠ 9 ∧ type ≠ 10 ∧ type ≠ 12 ∧ type ≠ 13 ∧ type ≠ 14)
        ∨ cis.length < minArity type) :
    triangulateCell type cis buf = (buf, 0) := by
  have e : triTriples type cis = ([] : List Int) := by
    rcases h with ⟨n5, n7, n9, n10, n12, n13, n14⟩ | hlen
    · unfold triTriples
      rw [if_neg n5, if_neg n7, if_neg n9, if_neg n10, if_neg n12, if_neg n13, if_neg n14]
    · unfold minArity at hlen
      unfold triTriples
      split_ifs at hlen ⊢ <;> first | rfl | omega
  simp [triangulateCell, e]

/-- C3 witness: an unsupported type code (99) and an under-filled quad both
yield zero triangles and leave the buffer untouched. -/
theorem triangulateCell_skips_malformed_witness :
    triangulateCell 99 ([0,1,2,3,4,5,6,7] : List Int) [5] = ([5], 0) ∧
    triangulateCell 9 ([0,1,2] : List Int) [5] = ([5], 0) := by
  exact ⟨triangulateCell_skips_malformed 99 [0,1,2,3,4,5,6,7] [5] (Or.inl (by decide)),
    triangulateCell_skips_malformed 9 [0,1,2] [5] (Or.inr (by decide))⟩

/-- The inner slice loop of the XML decoder's cell walk
(src VTULoader.parse: `for (let k = currentOffset; k < nextOffset; k++) if (k <
connectivity.length) cellIndices.push(connectivity[k])`).  A negative index read
yields the JS `undefined`, modelled as `none`; an index at or beyond the array
length is not pushed at all (the source's guard). -/
def cellSliceAux (conn : List Int) : Nat → Int → List (Option Int)
  | 0, _ => []
  | n+1, lo =>
      (if lo < (conn.length : Int) then
         [if lo < 0 then none else conn.get? lo.toNat]
       else []) ++ cellSliceAux conn n (lo + 1)

/-- See `cellSliceAux`: the loop runs once per integer in `[lo, hi)`, which is
`(hi - lo).toNat` iterations. -/
def cellSliceJS (conn : List Int) (lo hi : Int) : List (Option Int) :=
  cellSliceAux conn (hi - lo).toNat lo

/-- The XML decoder's cell walk (src VTULoader.parse, the `for (let i = 0; i <
safeNumCells; i++)` loop): per cell, read `offsets[i]` and `types[i]`, slice the
connectivity, triangulate, and push `trianglesAdded` copies of `i` onto the
cell-ID map. -/
def xmlWalkLoop (conn offsets types : List Int) :
    Nat → Nat → Int → List (Option Int) → List Nat → List (Option Int) × List Nat
  | 0, _, _, ind, cid => (ind, cid)
  | n+1, i, cur, ind, cid =>
      let next := vAt offsets i
      let r := triangulateCell (vAt types i) (cellSliceJS conn cur next) ind
      xmlWalkLoop conn offsets types n (i+1) next r.1 (cid ++ List.replicate r.2 i)

/-- The XML decoder's index/cell-ID-map generation (src VTULoader.parse lines
155-183): if any of the three cell arrays failed to decode, nothing is
generated; otherwise the walk runs for
`Math.min(numberOfCells, offsets.length, types.length)` iterations starting
from `currentOffset = 0`. -/
def xmlGenIndices (numberOfCells : Int) (conn offsets types : Option (List Int)) :
    List (Option Int) × List Nat :=
  match conn, offsets, types with
  | some c, some o, some t =>
      xmlWalkLoop c o t
        (min numberOfCells (min (o.length : Int) (t.length : Int))).toNat 0 0 [] []
  | _, _, _ => ([], [])

/-- The cell walk as the specification describes it: iterate over exactly the
clamped number of cells; cell `i` takes as its vertex list the connectivity
entries in the half-open range `[runningStart, offsets[i])` (clipped to the
entries that exist), and `runningStart` becomes `offsets[i]`. -/
def xmlWalkSpec (conn offsets types : List Int) :
    Nat → Nat → Int → List (Option Int) → List Nat → List (Option Int) × List Nat
  | 0, _, _, ind, cid => (ind, cid)
  | n+1, i, rs, ind, cid =>
      let next := vAt offsets i
      let cis := ((conn.drop rs.toNat).take (next - rs).toNat).map some
      let r := triangulateCell (vAt types i) cis ind
      xmlWalkSpec conn offsets types n (i+1) next r.1 (cid ++ List.replicate r.2 i)

theorem cellSliceAux_eq_slice (conn : List Int) :
    ∀ (n : Nat) (lo : Int), 0 ≤ lo →
      cellSliceAux conn n lo = ((conn.drop lo.toNat).take n).map some := by
  intro n
  induction n with
  | zero => intro lo h0; simp [cellSliceAux]
  | succ m ih =>
      intro lo h0
      rw [cellSliceAux]
      have hrec := ih (lo + 1) (by omega)
      have htn : (lo + 1).toNat = lo.toNat + 1 := by omega
      by_cases hlen : lo < (conn.length : Int)
      · have hb : lo.toNat < conn.length := by omega
        rw [if_pos hlen, if_neg (by omega : ¬ lo < 0), hrec, htn]
        rw [List.drop_eq_getElem_cons hb, List.take_succ_cons, List.map_cons]
        rw [List.get?_eq_getElem?, List.getElem?_eq_getElem hb]
        rfl
      · have h1 : conn.drop lo.toNat = [] := List.drop_eq_nil_of_le (by omega)
        have h2 : conn.drop (lo + 1).toNat = [] := List.drop_eq_nil_of_le (by omega)
        rw [if_neg hlen, hrec, h1, h2]
        simp

theorem cellSliceJS_eq_slice (conn : List Int) (lo hi : Int) (h0 : 0 ≤ lo) :
    cellSliceJS conn lo hi = ((conn.drop lo.toNat).take (hi - lo).toNat).map some :=
  cellSliceAux_eq_slice conn _ lo h0

theorem vAt_nonneg_of_mem {l : List Int} (h : ∀ v ∈ l, 0 ≤ v) {i : Nat}
    (hi : i < l.length) : 0 ≤ vAt l i := by
  have : vAt l i = l[i] := by
    simp [vAt, List.getD_eq_getElem?_getD, List.getElem?_eq_getElem hi]
  rw [this]
  exact h _ (List.getElem_mem hi)

theorem xmlWalk_eq_spec (conn offsets types : List Int)
    (hoff : ∀ v ∈ offsets, 0 ≤ v) :
    ∀ (n i : Nat) (cur : Int) (ind : List (Option Int)) (cid : List Nat),
      0 ≤ cur → i + n ≤ offsets.length →
      xmlWalkLoop conn offsets types n i cur ind cid
        = xmlWalkSpec conn offsets types n i cur ind cid := by
  intro n
  induction n with
  | zero => intro i cur ind cid _ _; rfl
  | succ m ih =>
      intro i cur ind cid hcur hlen
      have hnext : 0 ≤ vAt offsets i := vAt_nonneg_of_mem hoff (by omega)
      rw [xmlWalkLoop, xmlWalkSpec]
      rw [cellSliceJS_eq_slice conn cur (vAt offsets i) hcur]
      exact ih (i+1) _ _ _ hnext (by omega)

/-- C4: in the XML decoder, the cell walk iterates exactly
`min(declaredCellCount, offsets.length, types.length)` cells; for each cell `i`
the vertex list is the list of connectivity entries with positions in the
half-open range `[runningStart, offsets[i])`, and `runningStart` becomes
`offsets[i]` for the next cell; the slice and `types[i]` feed the triangulation
engine.  The hypothesis states that offsets are nonnegative, as every byte
offset list of a well-formed file is. -/
theorem xml_walk_clamped_spec (numberOfCells : Int) (conn offsets types : List Int)
    (hoff : ∀ v ∈ offsets, 0 ≤ v) :
    xmlGenIndices numberOfCells (some conn) (some offsets) (some types)
      = xmlWalkSpec conn offsets types
          (min numberOfCells (min (offsets.length : Int) (types.length : Int))).toNat
          0 0 [] [] := by
  have hb : (min numberOfCells (min (offsets.length : Int) (types.length : Int))).toNat
      ≤ offsets.length := by omega
  exact xmlWalk_eq_spec conn offsets types hoff _ 0 0 [] [] le_rfl (by omega)

/-- C4 witness: a 2-cell decode (one triangle cell, one degenerate 1-vertex
cell) evaluated concretely. -/
theorem xml_walk_clamped_spec_witness :
    xmlGenIndices 2 (some [10,11,12,13]) (some [3,4]) (some [5,5])
      = xmlWalkSpec [10,11,12,13] [3,4] [5,5] 2 0 0 [] []
    ∧ xmlGenIndices 2 (some [10,11,12,13]) (some [3,4]) (some [5,5])
      = ([some 10, some 11, some 12], [0]) := by
  constructor
  · exact xml_walk_clamped_spec 2 [10,11,12,13] [3,4] [5,5] (by decide)
  · decide

theorem xmlWalkLoop_len (conn offsets types : List Int) :
    ∀ (n i : Nat) (cur : Int) (ind : List (Option Int)) (cid : List Nat),
      ind.length = 3 * cid.length →
      (xmlWalkLoop conn offsets types n i cur ind cid).1.length
        = 3 * (xmlWalkLoop conn offsets types n i cur ind cid).2.length := by
  intro n
  induction n with
  | zero => intro i cur ind cid h; exact h
  | succ m ih =>
      intro i cur ind cid h
      rw [xmlWalkLoop]
      apply ih
      rw [triangulateCell_length, List.length_append, List.length_replicate, h]
      ring

/-- Little-endian 32-bit read at byte position `p` (`DataView.getUint32(p, true)`);
in the embedded uses, `p + 4 ≤ buffer.length` is guaranteed by the source's
bounds guard before the read. -/
def leU32 (b : List Nat) (p : Nat) : Nat :=
  b.getD p 0 + b.getD (p+1) 0 * 256 + b.getD (p+2) 0 * 65536 + b.getD (p+3) 0 * 16777216

/-- Outcome of decoding one appended-format data array: an uncaught JS exception
(`thrown`), the source's `return null` (`nullData`), or the payload byte
segment handed on to `createTypedArray` (`ok`). -/
inductive ArrOutcome
  | thrown
  | nullData
  | ok (bytes : List Nat)
  deriving DecidableEq

/-- The `format === 'appended'` branch of `VTULoader.parseDataArray`
(src part_000 lines 265-322), modelled down to the byte segment that is handed
to `createTypedArray`.  `offset?` is the parsed `offset` attribute (`none` for
NaN, in which case the source returns null); for a `raw` appended segment the
resolved start is `offsetStart + offset` (byte after the `_` marker), for a
decoded base64 segment it is `offset` itself.  A `DataView.getUint32` read at a
negative index throws a RangeError, modelled as `thrown`; it happens after both
of the source's bounds guards. -/
def parseAppended (buffer : List Nat) (isRaw : Bool) (offsetStart : Nat) :
    Option Int → Nat → ArrOutcome
  | none, _ => .nullData
  | some offset, headerSize =>
      let start : Int := if isRaw then (offsetStart : Int) + offset else offset
      if (buffer.length : Int) ≤ start then .nullData
      else if (buffer.length : Int) < start + headerSize then .nullData
      else if start < 0 then .thrown
      else
        let s := start.toNat
        let byteSize :=
          if headerSize = 8 then leU32 buffer s + leU32 buffer (s+4) * 4294967296
          else leU32 buffer s
        let dataStart := s + headerSize
        if buffer.length < dataStart + byteSize then .nullData
        else .ok ((buffer.drop dataStart).take byteSize)

/-- A byte sequence read as one little-endian number (claim-side formalisation
of "headerSize-byte little-endian length header"). -/
def leNumber (bytes : List Nat) : Nat := bytes.foldr (fun b acc => b + 256 * acc) 0

/-- The appended-array contract as the specification words it: at the resolved
start position read a `headerSize`-byte little-endian length header, then take
exactly that many payload bytes immediately after the header; if the header or
the payload would extend past the end of the buffer, yield no data. -/
def appendedSpec (buffer : List Nat) (start headerSize : Nat) : ArrOutcome :=
  let size := leNumber ((buffer.drop start).take headerSize)
  if buffer.length < start + headerSize then .nullData
  else if buffer.length < start + headerSize + size then .nullData
  else .ok ((buffer.drop (start + headerSize)).take size)

theorem leNumber_step (b : List Nat) (s n : Nat) (h : s < b.length) :
    leNumber ((b.drop s).take (n+1)) = b.getD s 0 + 256 * leNumber ((b.drop (s+1)).take n) := by
  rw [List.drop_eq_getElem_cons h, List.take_succ_cons]
  have hg : b.getD s 0 = b[s] := by
    simp [List.getD_eq_getElem?_getD, List.getElem?_eq_getElem h]
  rw [leNumber, List.foldr_cons, hg]
  rfl

theorem byteSize_eq_leNumber (b : List Nat) (s : Nat) :
    (s + 4 ≤ b.length → leU32 b s = leNumber ((b.drop s).take 4)) ∧
    (s + 8 ≤ b.length →
      leU32 b s + leU32 b (s+4) * 4294967296 = leNumber ((b.drop s).take 8)) := by
  constructor
  · intro h
    rw [leNumber_step b s 3 (by omega), leNumber_step b (s+1) 2 (by omega),
      leNumber_step b (s+1+1) 1 (by omega), leNumber_step b (s+1+1+1) 0 (by omega)]
    simp only [show s+1+1 = s+2 from rfl, show s+1+1+1 = s+3 from rfl,
      List.take_zero]
    unfold leNumber leU32
    simp only [List.foldr_nil]
    ring
  · intro h
    rw [leNumber_step b s 7 (by omega), leNumber_step b (s+1) 6 (by omega),
      leNumber_step b (s+1+1) 5 (by omega), leNumber_step b (s+1+1+1) 4 (by omega),
      leNumber_step b (s+1+1+1+1) 3 (by omega), leNumber_step b (s+1+1+1+1+1) 2 (by omega),
      leNumber_step b (s+1+1+1+1+1+1) 1 (by omega),
      leNumber_step b (s+1+1+1+1+1+1+1) 0 (by omega)]
    simp only [show s+1+1 = s+2 from rfl, show s+1+1+1 = s+3 from rfl,
      show s+1+1+1+1 = s+4 from rfl, show s+1+1+1+1+1 = s+5 from rfl,
      show s+1+1+1+1+1+1 = s+6 from rfl, show s+1+1+1+1+1+1+1 = s+7 from rfl,
      show s+4+1 = s+5 from rfl, show s+4+2 = s+6 from rfl, show s+4+3 = s+7 from rfl,
      List.take_zero]
    unfold leNumber leU32
    simp only [List.foldr_nil]
    ring

/-- C5: for an appended-format array (raw or base64 segment encoding), the
decoder reads a `headerSize`-byte little-endian length header at the resolved
start position (for 8-byte headers combining the two 32-bit little-endian words
as low + high·2^32), then takes exactly that many payload bytes immediately
after the header; if the header or the payload would extend past the end of the
buffer, the array yields no data instead.  Hypotheses: the header size is the
4 or 8 bytes the source derives from `header_type`, and the resolved start
position is nonnegative. -/
theorem appended_header_then_payload (buffer : List Nat) (isRaw : Bool)
    (offsetStart : Nat) (offset : Int) (headerSize : Nat)
    (hhs : headerSize = 4 ∨ headerSize = 8)
    (hstart : 0 ≤ if isRaw then (offsetStart : Int) + offset else offset) :
    parseAppended buffer isRaw offsetStart (some offset) headerSize
      = appendedSpec buffer
          (if isRaw then (offsetStart : Int) + offset else offset).toNat headerSize := by
  simp only [parseAppended, appendedSpec]
  generalize hg : (if isRaw then (offsetStart : Int) + offset else offset) = st at hstart
  have hhs0 : 4 ≤ headerSize := by rcases hhs with h | h <;> omega
  by_cases h1 : (buffer.length : Int) ≤ st
  · rw [if_pos h1, if_pos (show buffer.length < st.toNat + headerSize by omega)]
  · rw [if_neg h1]
    by_cases h2 : (buffer.length : Int) < st + headerSize
    · rw [if_pos h2, if_pos (by omega)]
    · rw [if_neg h2, if_neg (by omega : ¬ st < 0)]
      have hsize :
          (if headerSize = 8 then
             leU32 buffer st.toNat + leU32 buffer (st.toNat+4) * 4294967296
           else leU32 buffer st.toNat)
            = leNumber ((buffer.drop st.toNat).take headerSize) := by
        rcases hhs with h | h
        · subst h
          rw [if_neg (by omega)]
          exact (byteSize_eq_leNumber buffer st.toNat).1 (by omega)
        · subst h
          rw [if_pos rfl]
          exact (byteSize_eq_leNumber buffer st.toNat).2 (by omega)
      rw [hsize, if_neg (show ¬ buffer.length < st.toNat + headerSize by omega)]

/-- C5 witness: a 4-byte header declaring 3 payload bytes, and an 8-byte header
declaring 2 payload bytes, both evaluated concretely (and a truncated payload
yielding null). -/
theorem appended_header_then_payload_witness :
    parseAppended [3,0,0,0,7,8,9] false 0 (some 0) 4
      = appendedSpec [3,0,0,0,7,8,9] 0 4
    ∧ parseAppended [3,0,0,0,7,8,9] false 0 (some 0) 4 = ArrOutcome.ok [7,8,9]
    ∧ parseAppended [9,9,2,0,0,0,0,0,0,0,5,6] true 1 (some 1) 8
      = appendedSpec [9,9,2,0,0,0,0,0,0,0,5,6] 2 8
    ∧ parseAppended [9,9,2,0,0,0,0,0,0,0,5,6] true 1 (some 1) 8 = ArrOutcome.ok [5,6]
    ∧ parseAppended [9,0,0,0,7,8] false 0 (some 0) 4 = ArrOutcome.nullData := by
  refine ⟨?_, by decide, ?_, by decide, by decide⟩
  · exact appended_header_then_payload [3,0,0,0,7,8,9] false 0 0 4 (Or.inl rfl) (by decide)
  · exact appended_header_then_payload [9,9,2,0,0,0,0,0,0,0,5,6] true 1 1 8
      (Or.inr rfl) (by decide)

/-- C6 (code bug): a negative `offset` attribute — an out-of-bounds offset —
slips past both of the source's bounds guards (`start >= buffer.length` and
`start + headerSize > buffer.byteLength` are both false for a negative start),
so the `DataView.getUint32(start, true)` read throws a RangeError; the
exception propagates out of `parseDataArray` (the appended branch has no
try/catch) and aborts the whole parse, instead of yielding null for that one
array as the specification requires. -/
theorem appended_negative_offset_throws :
    parseAppended (List.replicate 10 0) false 0 (some (-5)) 4 = ArrOutcome.thrown := by
  decide

/-- One step of the source's running min/max loop (`if (v < min) min = v;
if (v > max) max = v`); the accumulators start at JS `Infinity` / `-Infinity`,
modelled as the top and bottom elements of `WithTop Int` / `WithBot Int`. -/
def mmStep (p : WithTop Int × WithBot Int) (v : Int) : WithTop Int × WithBot Int :=
  (if (v : WithTop Int) < p.1 then (v : WithTop Int) else p.1,
   if p.2 < (v : WithBot Int) then (v : WithBot Int) else p.2)

/-- The min/max computation both decoders run over a sealed field's data. -/
def computeMinMax (data : List Int) : WithTop Int × WithBot Int :=
  data.foldl mmStep (⊤, ⊥)

theorem foldl_mmStep (l : List Int) :
    ∀ (mn : WithTop Int) (mx : WithBot Int),
      l.foldl mmStep (mn, mx) = (min mn l.minimum, max mx l.maximum) := by
  induction l with
  | nil =>
      intro mn mx
      simp [List.minimum_nil, List.maximum_nil]
  | cons a t ih =>
      intro mn mx
      rw [List.foldl_cons, mmStep, ih, List.minimum_cons, List.maximum_cons]
      congr 1
      · by_cases h : (a : WithTop Int) < mn
        · rw [if_pos h, min_eq_right (le_trans (min_le_left (a : WithTop Int) t.minimum) h.le)]
        · push_neg at h
          rw [if_neg (not_lt.mpr h), ← min_assoc, min_eq_left h]
      · by_cases h : mx < (a : WithBot Int)
        · rw [if_pos h, max_eq_right (le_trans h.le (le_max_left (a : WithBot Int) t.maximum))]
        · push_neg at h
          rw [if_neg (not_lt.mpr h), ← max_assoc, max_eq_left h]

theorem computeMinMax_eq (data : List Int) :
    computeMinMax data = (data.minimum, data.maximum) := by
  rw [computeMinMax, foldl_mmStep, min_eq_right le_top, max_eq_right bot_le]

/-- A sealed scalar field as both decoders build it (`{ name, min, max, data }`
of src/types.ts); names are JS strings, i.e. character lists. -/
structure ScalarFieldM where
  name : List Char
  min : WithTop Int
  max : WithBot Int
  data : List Int
  deriving DecidableEq, Inhabited

/-- The PointData/CellData loop of `VTULoader.parse` (src part_000 lines
186-233): for each DataArray (given here as name, parsed NumberOfComponents
with `none` for NaN, and decode result with `none` for a failed decode), only
single-component arrays whose decode succeeded and produced at least one value
become fields, carrying the running min/max. -/
def xmlFieldStep (acc : List ScalarFieldM)
    (a : List Char × Option Int × Option (List Int)) : List ScalarFieldM :=
  if a.2.1 = some 1 then
    match a.2.2 with
    | some arr =>
        let mm := computeMinMax arr
        if 0 < arr.length then acc ++ [⟨a.1, mm.1, mm.2, arr⟩] else acc
    | none => acc
  else acc

def xmlFields (arrays : List (List Char × Option Int × Option (List Int))) :
    List ScalarFieldM :=
  arrays.foldl xmlFieldStep []

/-- JS whitespace characters relevant to this format (matched by the `\s` of
the source's `split(/\s+/)` and by `String.prototype.trim`). -/
def isWs (c : Char) : Bool :=
  (c == ' ') || (c == '\t') || (c == '\n') || (c == '\r') || (c == '\x0b') || (c == '\x0c')

/-- JS `line.trim()`. -/
def trimChars (l : List Char) : List Char :=
  ((l.dropWhile isWs).reverse.dropWhile isWs).reverse

def splitWsAux : List Char → List Char → List (List Char)
  | [], cur => if cur.isEmpty then [] else [cur.reverse]
  | c :: rest, cur =>
      if isWs c then
        if cur.isEmpty then splitWsAux rest [] else cur.reverse :: splitWsAux rest []
      else splitWsAux rest (c :: cur)

/-- JS `line.split(/\s+/)` on an already-trimmed line (no empty tokens arise). -/
def splitWs (l : List Char) : List (List Char) := splitWsAux l []

def takeDigits : List Char → Nat → Nat
  | [], acc => acc
  | c :: rest, acc => if c.isDigit then takeDigits rest (acc * 10 + (c.toNat - 48)) else acc

def digitsPrefixVal : List Char → Option Nat
  | [] => none
  | c :: rest => if c.isDigit then some (takeDigits (c :: rest) 0) else none

/-- JS `parseInt` on a whitespace-free token, in the integer-valued model: an
optional sign followed by the longest digit prefix; `none` is NaN.  (On the
integer-literal tokens of the model `parseFloat` agrees, so this also models
the source's `parseNumbers` element parser.) -/
def parseNumTok (l : List Char) : Option Int :=
  match l with
  | '-' :: rest => (digitsPrefixVal rest).map (fun n => -(n : Int))
  | '+' :: rest => (digitsPrefixVal rest).map (fun n => (n : Int))
  | _ => (digitsPrefixVal l).map (fun n => (n : Int))

/-- The source's `parseNumbers` helper: trim, split on whitespace, parse each
token, and drop the NaNs. -/
def parseNumbers (line : List Char) : List Int :=
  (splitWs (trimChars line)).filterMap parseNumTok

/-- Top-level section of the legacy decoder's state machine. -/
inductive LSec
  | NONE | POINTS | CELLS | CELL_TYPES | POINT_DATA | CELL_DATA
  | POLYGONS | LINES | TRIANGLE_STRIPS
  deriving DecidableEq

/-- Sub-state for attribute parsing. -/
inductive LSub
  | NONE | SCALARS
  deriving DecidableEq

/-- The scalar field currently being accumulated (`currentScalar`);
`components` is `none` when `parseInt(parts[3] || '1')` produced NaN. -/
structure CurScalar where
  name : List Char
  type : List Char
  components : Option Int
  data : List Int
  deriving DecidableEq

/-- The mutable locals of `VTKUnstructuredLoader.parse` (src part_001 lines
269-294).  `numCells` is `none` when the `CELLS` header count parsed to NaN. -/
structure LState where
  sec : LSec
  sub : LSub
  numPoints : Nat
  numCells : Option Int
  points : List Int
  pointCount : Nat
  cellDataRaw : List Int
  cellTypes : List Int
  currentScalar : Option CurScalar
  pointFields : List ScalarFieldM
  cellFields : List ScalarFieldM
  deriving DecidableEq

def initLState : LState :=
  ⟨.NONE, .NONE, 0, some 0, [], 0, [], [], none, [], []⟩

/-- The scalar-value accumulation and sealing step (src part_001 lines
419-452): append the line's parsed values to the current scalar; when the
running count reaches `targetCount * components` (POINT_DATA target is
`numPoints`; CELL_DATA target is `cellTypes.length || numCells`), compute
min/max over all accumulated values and seal the field. -/
def targetCountOf (st : LState) : Option Int :=
  if st.sec = .POINT_DATA then some (st.numPoints : Int)
  else if st.cellTypes.length ≠ 0 then some (st.cellTypes.length : Int)
  else st.numCells

/-- The seal test `data.length >= targetCount * components` (false whenever
either side is NaN, as in JS). -/
def sealCheck (targetCount components : Option Int) (n : Nat) : Bool :=
  match targetCount, components with
  | some t, some c => decide (t * c ≤ (n : Int))
  | _, _ => false

def scalarDataCore (st : LState) (vals : List Int) : LSub → Option CurScalar → LState
  | .SCALARS, some cs =>
      let data := cs.data ++ vals
      if sealCheck (targetCountOf st) cs.components data.length then
        let mm := computeMinMax data
        let f : ScalarFieldM := ⟨cs.name, mm.1, mm.2, data⟩
        if st.sec = .POINT_DATA then
          { st with pointFields := st.pointFields ++ [f], sub := .NONE, currentScalar := none }
        else
          { st with cellFields := st.cellFields ++ [f], sub := .NONE, currentScalar := none }
      else { st with currentScalar := some { cs with data := data } }
  | _, _ => st

def scalarData (st : LState) (vals : List Int) : LState :=
  scalarDataCore st vals st.sub st.currentScalar

/-- Keyword dispatch and data routing for one (already line-split) line of the
legacy VTK text (src part_001 lines 296-453).  `none` models a thrown
exception: `parts[1].toLowerCase()` on a missing DATASET argument, or
`new Array(numPoints * 3)` on a NaN or negative POINTS count. -/
def routeData (st : LState) (vals : List Int) : LState :=
  match st.sec with
  | .POINTS =>
      let pp := vals.foldl (fun (p : List Int × Nat) v =>
        if p.2 < p.1.length then (p.1.set p.2 v, p.2 + 1) else p)
        (st.points, st.pointCount)
      { st with points := pp.1, pointCount := pp.2 }
  | .CELLS => { st with cellDataRaw := st.cellDataRaw ++ vals }
  | .POLYGONS => { st with cellDataRaw := st.cellDataRaw ++ vals }
  | .LINES => { st with cellDataRaw := st.cellDataRaw ++ vals }
  | .TRIANGLE_STRIPS => { st with cellDataRaw := st.cellDataRaw ++ vals }
  | .CELL_TYPES => { st with cellTypes := st.cellTypes ++ vals }
  | .POINT_DATA => scalarData st vals
  | .CELL_DATA => scalarData st vals
  | .NONE => st

def processLine (st : LState) (rawLine : List Char) : Option LState :=
  let line := trimChars rawLine
  if line.isEmpty ∨ line.headD ' ' = '#' then some st
  else
    let parts := splitWs line
    let kw := (parts.headD []).map Char.toLower
    if kw = "dataset".data then
      (parts.get? 1).map (fun _ => st)
    else if kw = "points".data then
      (parseNumTok (parts.getD 1 [])).bind (fun n =>
        if n < 0 then none
        else some
          { st with
              sec := .POINTS
              numPoints := n.toNat
              points := List.replicate (3 * n.toNat) 0
              pointCount := 0 })
    else if kw = "cells".data then
      some { st with sec := .CELLS, numCells := parseNumTok (parts.getD 1 []) }
    else if kw = "polygons".data then some { st with sec := .POLYGONS }
    else if kw = "lines".data then some { st with sec := .LINES }
    else if kw = "triangle_strips".data then some { st with sec := .TRIANGLE_STRIPS }
    else if kw = "cell_types".data then some { st with sec := .CELL_TYPES }
    else if kw = "point_data".data then some { st with sec := .POINT_DATA, sub := .NONE }
    else if kw = "cell_data".data then some { st with sec := .CELL_DATA, sub := .NONE }
    else if kw = "scalars".data then
      some
        { st with
            sub := .SCALARS
            currentScalar := some
              ⟨parts.getD 1 [], parts.getD 2 [],
               (match parts.get? 3 with
                | some tok => parseNumTok tok
                | none => some 1), []⟩ }
    else if kw = "lookup_table".data then some st
    else some (routeData st (parseNumbers line))

/-- The arity-prefix type-inference rule (src part_001 lines 504-508). -/
def inferTypeOf (nPts : Int) : Int :=
  if nPts = 1 then 1 else if nPts = 2 then 3 else if nPts = 3 then 5
  else if nPts = 4 then 9 else 7

/-- The poly-data type-inference loop (src part_001 lines 487-513):
`while (index < cellDataRaw.length)` push the inferred type and advance the
index by `nPts + 1`.  Fuel bounds the iteration count; `none` models a
non-terminating JS loop (a terminating run visits pairwise distinct indices, so
`length + 1` fuel never cuts a terminating run short).  A negative running
index reads `undefined`: the source then pushes 7 and the index becomes NaN,
ending the loop. -/
def inferTypesLoop (raw : List Int) : Nat → Int → List Int → Option (List Int)
  | 0, index, acc => if index < (raw.length : Int) then none else some acc
  | fuel+1, index, acc =>
      if index < (raw.length : Int) then
        if index < 0 then some (acc ++ [7])
        else
          let nPts := vAt raw index.toNat
          inferTypesLoop raw fuel (index + nPts + 1) (acc ++ [inferTypeOf nPts])
      else some acc

def inferTypes (raw : List Int) : Option (List Int) :=
  inferTypesLoop raw (raw.length + 1) 0 []

/-- The legacy geometry-generation walk (src part_001 lines 516-542): per cell,
break if the read position is past the raw buffer, read the arity prefix,
collect up to `nPts` in-bounds values (the source's guarded inner loop),
triangulate, and record the cell id once per triangle. -/
def legacyWalkLoop (types raw : List Int) :
    Nat → Nat → Nat → List Int → List Nat → List Int × List Nat
  | 0, _, _, ind, cid => (ind, cid)
  | n+1, i, cdi, ind, cid =>
      if raw.length ≤ cdi then (ind, cid)
      else
        let nPts := vAt raw cdi
        let cis := (raw.drop (cdi + 1)).take nPts.toNat
        let r := triangulateCell (vAt types i) cis ind
        legacyWalkLoop types raw n (i+1) (cdi + 1 + cis.length) r.1
          (cid ++ List.replicate r.2 i)

/-- The walk entry: `safeNumCells = Math.min(numCells, cellTypes.length)`
(`none` = NaN, which makes the loop run zero times). -/
def legacyGeom (numCells : Option Int) (types raw : List Int) :
    List Int × List Nat :=
  let safe := match numCells with
    | none => 0
    | some n => (min n (types.length : Int)).toNat
  legacyWalkLoop types raw safe 0 0 [] []

/-- Variant of `legacyWalkLoop` with every array read checked: a read that would fall
outside the list (a JS `undefined`) aborts with `none`. -/
def legacyWalkChecked (types raw : List Int) :
    Nat → Nat → Nat → List Int → List Nat → Option (List Int × List Nat)
  | 0, _, _, ind, cid => some (ind, cid)
  | n+1, i, cdi, ind, cid =>
      if raw.length ≤ cdi then some (ind, cid)
      else
        match raw.get? cdi, types.get? i with
        | some nPts, some ty =>
            let cis := (raw.drop (cdi + 1)).take nPts.toNat
            let r := triangulateCell ty cis ind
            legacyWalkChecked types raw n (i+1) (cdi + 1 + cis.length) r.1
              (cid ++ List.replicate r.2 i)
        | _, _ => none

def legacyGeomChecked (numCells : Option Int) (types raw : List Int) :
    Option (List Int × List Nat) :=
  let safe := match numCells with
    | none => 0
    | some n => (min n (types.length : Int)).toNat
  legacyWalkChecked types raw safe 0 0 [] []

/-- The assembled legacy decode result (points buffer, triangle index buffer,
cell-ID map, sealed point and cell scalar fields). -/
structure LegacyResult where
  points : List Int
  indices : List Int
  cellIdMap : List Nat
  pointData : List ScalarFieldM
  cellData : List ScalarFieldM
  deriving DecidableEq, Inhabited

/-- JS `data.split(/\r?\n/)`: split on newlines, stripping one carriage return
immediately before each newline (the accumulator holds the current line
reversed, so that return is its head). -/
def splitLinesJS : List Char → List Char → List (List Char)
  | [], cur => [cur.reverse]
  | c :: rest, cur =>
      if c = '\n' then
        (match cur with
         | '\x0d' :: cur2 => cur2.reverse
         | _ => cur.reverse) :: splitLinesJS rest []
      else splitLinesJS rest (c :: cur)

/-- Method `VTKUnstructuredLoader.parse` (src part_001 lines 263-562) on the decoded
text: run the line state machine, then — poly-data convention — if no
CELL_TYPES were accumulated but raw cell data exists, infer the cell types from
the arity prefixes and set `numCells` to the inferred count, and finally run
the geometry walk.  `none` models a thrown exception or a non-terminating
inference loop. -/
def legacyParse (text : List Char) : Option LegacyResult :=
  match (splitLinesJS text []).foldlM processLine initLState with
  | none => none
  | some st =>
      match (if st.cellTypes.length = 0 ∧ 0 < st.cellDataRaw.length
                  then inferTypes st.cellDataRaw
                  else some st.cellTypes) with
      | none => none
      | some ts =>
          let numCells := if st.cellTypes.length = 0 ∧ 0 < st.cellDataRaw.length
                          then some (ts.length : Int) else st.numCells
          let g := legacyGeom numCells ts st.cellDataRaw
          some ⟨st.points, g.1, g.2, st.pointFields, st.cellFields⟩

theorem vAt_append_length (l1 l2 : List Int) (x : Int) :
    vAt (l1 ++ x :: l2) l1.length = x := by
  induction l1 with
  | nil => rfl
  | cons a t ih =>
      rw [List.cons_append]
      show (a :: (t ++ x :: l2)).getD (t.length + 1) default = x
      rw [List.getD_cons_succ]
      exact ih

theorem vAt_replicate_three (k i : Nat) :
    vAt (List.replicate k (3:Int)) i = 3 ∨ vAt (List.replicate k (3:Int)) i = 0 := by
  by_cases h : i < k
  · left
    have hl : i < (List.replicate k (3:Int)).length := by simpa using h
    simp [vAt, List.getD_eq_getElem?_getD, List.getElem?_eq_getElem hl]
  · right
    have hl : (List.replicate k (3:Int)).length ≤ i := by simpa using Nat.le_of_not_lt h
    simp [vAt, List.getD_eq_getElem?_getD, List.getElem?_eq_none_iff.mpr hl]

theorem triangulateCell_line_or_default (t : Int) (h : t = 3 ∨ t = 0)
    (cis ind : List Int) : triangulateCell t cis ind = (ind, 0) := by
  rcases h with h | h <;> subst h <;> simp [triangulateCell, triTriples]

/-- The raw-buffer layout of a pure-LINES poly-data file: one
arity-2 group `2, a, b` per line cell. -/
def linesRaw (ps : List (Int × Int)) : List Int :=
  ps.flatMap (fun p => [2, p.1, p.2])

theorem linesRaw_append (a b : List (Int × Int)) :
    linesRaw (a ++ b) = linesRaw a ++ linesRaw b := by
  simp [linesRaw]

theorem linesRaw_length (ps : List (Int × Int)) :
    (linesRaw ps).length = 3 * ps.length :=
  flatMap_const_length ps _ 3 (fun _ _ => rfl)

theorem inferTypesLoop_isSome (raw : List Int) (hpos : ∀ v ∈ raw, 0 ≤ v) :
    ∀ (fuel : Nat) (index : Int) (acc : List Int),
      0 ≤ index → (raw.length : Int) - index < fuel →
      (inferTypesLoop raw fuel index acc).isSome := by
  intro fuel
  induction fuel with
  | zero =>
      intro index acc h0 hfuel
      rw [inferTypesLoop, if_neg (by omega)]
      rfl
  | succ f ih =>
      intro index acc h0 hfuel
      rw [inferTypesLoop]
      by_cases hlt : index < (raw.length : Int)
      · rw [if_pos hlt, if_neg (by omega)]
        have hp : 0 ≤ vAt raw index.toNat := vAt_nonneg_of_mem hpos (by omega)
        exact ih (index + vAt raw index.toNat + 1) (acc ++ [inferTypeOf (vAt raw index.toNat)])
          (by omega) (by omega)
      · rw [if_neg hlt]
        rfl

/-- C10: the type-inference loop advances its read position by
`arity prefix + 1` per iteration (see `inferTypesLoop`), so on any raw cell
buffer whose entries — in particular every arity prefix it reads — are
nonnegative, the loop terminates (the fuelled model, given fuel that a
terminating JS run can never exhaust, returns a value).  Nonnegativity is
needed: prefix -1 gives step size 0, the JS loop re-reads the same prefix
forever, and the model returns `none`. -/
theorem inference_loop_terminates :
    (∀ raw : List Int, (∀ v ∈ raw, 0 ≤ v) → (inferTypes raw).isSome) ∧
    inferTypes [-1] = none := by
  constructor
  · intro raw hpos
    exact inferTypesLoop_isSome raw hpos (raw.length + 1) 0 [] le_rfl (by omega)
  · decide

/-- C10 witness: the loop completes on a concrete nonnegative buffer. -/
theorem inference_loop_terminates_witness :
    (inferTypes [3, 5, 6, 7, 0, 2, 8, 9]).isSome := by
  exact inference_loop_terminates.1 [3, 5, 6, 7, 0, 2, 8, 9] (by decide)

theorem legacyWalkChecked_eq (types raw : List Int) :
    ∀ (n i cdi : Nat) (ind : List Int) (cid : List Nat),
      i + n ≤ types.length →
      legacyWalkChecked types raw n i cdi ind cid
        = some (legacyWalkLoop types raw n i cdi ind cid) := by
  intro n
  induction n with
  | zero => intro i cdi ind cid hb; rfl
  | succ m ih =>
      intro i cdi ind cid hb
      rw [legacyWalkChecked, legacyWalkLoop]
      by_cases hlen : raw.length ≤ cdi
      · rw [if_pos hlen, if_pos hlen]
      · rw [if_neg hlen, if_neg hlen]
        have h1 : raw.get? cdi = some (vAt raw cdi) := by
          rw [List.get?_eq_getElem?, List.getElem?_eq_getElem (by omega)]
          simp [vAt, List.getD_eq_getElem?_getD, List.getElem?_eq_getElem (show cdi < raw.length by omega)]
        have h2 : types.get? i = some (vAt types i) := by
          rw [List.get?_eq_getElem?, List.getElem?_eq_getElem (by omega)]
          simp [vAt, List.getD_eq_getElem?_getD, List.getElem?_eq_getElem (show i < types.length by omega)]
        rw [h1, h2]
        exact ih (i+1) _ _ _ (by omega)

/-- C9: the legacy geometry walk performs no read past the end of the
accumulated raw cell values — the walk with every array read checked (a read of
a JS `undefined` aborts) always succeeds and returns exactly what the source's
walk returns: it breaks before reading an arity prefix that lies past the
buffer end, truncates a cell's vertex list at the buffer end, and the decode
still yields a mesh from the cells processed so far. -/
theorem legacy_walk_no_oob_read (numCells : Option Int) (types raw : List Int) :
    legacyGeomChecked numCells types raw = some (legacyGeom numCells types raw) := by
  simp only [legacyGeomChecked, legacyGeom]
  cases numCells with
  | none => exact legacyWalkChecked_eq types raw 0 0 0 [] [] (by omega)
  | some n =>
      exact legacyWalkChecked_eq types raw (min n (types.length : Int)).toNat 0 0 [] []
        (by omega)

theorem inferTypesLoop_lines :
    ∀ (ps2 ps1 : List (Int × Int)) (fuel : Nat) (acc : List Int),
      ps2.length + 1 ≤ fuel →
      inferTypesLoop (linesRaw (ps1 ++ ps2)) fuel (3 * (ps1.length : Int)) acc
        = some (acc ++ List.replicate ps2.length 3) := by
  intro ps2
  induction ps2 with
  | nil =>
      intro ps1 fuel acc hf
      cases fuel with
      | zero => omega
      | succ f =>
          rw [inferTypesLoop,
            if_neg (by rw [List.append_nil, linesRaw_length]; push_cast; omega)]
          simp
  | cons hd tl ih =>
      intro ps1 fuel acc hf
      simp only [List.length_cons] at hf
      cases fuel with
      | zero => omega
      | succ f =>
          have hlen : (linesRaw (ps1 ++ hd :: tl)).length
              = 3 * ps1.length + 3 + 3 * tl.length := by
            rw [linesRaw_length]; simp; omega
          have hsplit : linesRaw (ps1 ++ hd :: tl)
              = linesRaw ps1 ++ 2 :: hd.1 :: hd.2 :: linesRaw tl := by
            rw [show ps1 ++ hd :: tl = (ps1 ++ [hd]) ++ tl by simp,
              linesRaw_append, linesRaw_append]
            simp [linesRaw]
          have hv : vAt (linesRaw (ps1 ++ hd :: tl)) (3 * (ps1.length : Int)).toNat = 2 := by
            have ht : (3 * (ps1.length : Int)).toNat = (linesRaw ps1).length := by
              rw [linesRaw_length]; omega
            rw [hsplit, ht, vAt_append_length]
          simp only [inferTypesLoop]
          rw [if_pos (by rw [hlen]; push_cast; omega), if_neg (by omega), hv]
          have hidx : 3 * (ps1.length : Int) + 2 + 1 = 3 * (((ps1 ++ [hd]).length : Nat) : Int) := by
            simp only [List.length_append, List.length_cons, List.length_nil]
            omega
          have hraw : linesRaw (ps1 ++ hd :: tl) = linesRaw ((ps1 ++ [hd]) ++ tl) := by
            simp
          rw [show inferTypeOf 2 = 3 by rfl, hidx, hraw,
            ih (ps1 ++ [hd]) f (acc ++ [3]) (by omega)]
          simp [List.replicate_succ]

theorem legacyWalkLoop_lines :
    ∀ (ps2 ps1 : List (Int × Int)) (k i : Nat) (ind : List Int) (cid : List Nat),
      legacyWalkLoop (List.replicate k (3:Int)) (linesRaw (ps1 ++ ps2)) ps2.length i
        (3 * ps1.length) ind cid = (ind, cid) := by
  intro ps2
  induction ps2 with
  | nil => intro ps1 k i ind cid; rfl
  | cons hd tl ih =>
      intro ps1 k i ind cid
      have hlen : (linesRaw (ps1 ++ hd :: tl)).length
          = 3 * ps1.length + 3 + 3 * tl.length := by
        rw [linesRaw_length]; simp; omega
      have hsplit : linesRaw (ps1 ++ hd :: tl)
          = linesRaw ps1 ++ 2 :: hd.1 :: hd.2 :: linesRaw tl := by
        rw [show ps1 ++ hd :: tl = (ps1 ++ [hd]) ++ tl by simp,
          linesRaw_append, linesRaw_append]
        simp [linesRaw]
      have hv : vAt (linesRaw (ps1 ++ hd :: tl)) (3 * ps1.length) = 2 := by
        have ht : 3 * ps1.length = (linesRaw ps1).length := by rw [linesRaw_length]
        rw [hsplit, ht, vAt_append_length]
      simp only [List.length_cons, legacyWalkLoop]
      rw [if_neg (by omega), hv]
      rw [triangulateCell_line_or_default _ (vAt_replicate_three k i)]
      have hcis : (((linesRaw (ps1 ++ hd :: tl)).drop (3 * ps1.length + 1)).take
          ((2:Int)).toNat).length = 2 := by
        simp only [List.length_take, List.length_drop, hlen]
        omega
      rw [hcis]
      have hcdi : 3 * ps1.length + 1 + 2 = 3 * (ps1 ++ [hd]).length := by
        simp only [List.length_append, List.length_cons, List.length_nil]
        omega
      have hraw : linesRaw (ps1 ++ hd :: tl) = linesRaw ((ps1 ++ [hd]) ++ tl) := by
        simp
      rw [hcdi, hraw, List.replicate_zero, List.append_nil]
      exact ih (ps1 ++ [hd]) k (i+1) ind cid

/-- The concrete poly-data scenario file of the claim: LINES only, no
CELL_TYPES. -/
def linesOnlyText : List Char :=
  ("# vtk DataFile\nDATASET POLYDATA\nPOINTS 4 float\n0 0 0\n1 0 0\n1 1 0\n0 1 0\nLINES 2 6\n2 0 1\n2 2 3").data

def linesOnlyResult : LegacyResult := (legacyParse linesOnlyText).getD default

/-- C8: when no CELL_TYPES were parsed but raw cell data exists, the legacy
decoder infers cell types from each cell's arity prefix (1 → Vertex 1,
2 → Line 3, 3 → Triangle 5, 4 → Quad 9, 5 or more → Polygon 7); consequently a
pure-LINES poly-data buffer infers type 3 for every 2-point cell, the geometry
walk then yields zero triangles and an empty cell-ID map, and on the concrete
LINES-only file the decode completes with an empty index buffer. -/
theorem polydata_lines_yield_no_triangles :
    (inferTypeOf 1 = 1 ∧ inferTypeOf 2 = 3 ∧ inferTypeOf 3 = 5 ∧ inferTypeOf 4 = 9
      ∧ ∀ p : Int, 5 ≤ p → inferTypeOf p = 7) ∧
    (∀ ps : List (Int × Int),
      inferTypes (linesRaw ps) = some (List.replicate ps.length 3)) ∧
    (∀ ps : List (Int × Int),
      legacyGeom (some (ps.length : Int)) (List.replicate ps.length 3) (linesRaw ps)
        = ([], [])) ∧
    (legacyParse linesOnlyText = some linesOnlyResult ∧ linesOnlyResult.indices = []
      ∧ linesOnlyResult.cellIdMap = []) := by
  refine ⟨⟨rfl, rfl, rfl, rfl, fun p hp => ?_⟩, fun ps => ?_, fun ps => ?_,
    by decide, by decide, by decide⟩
  · unfold inferTypeOf
    rw [if_neg (by omega), if_neg (by omega), if_neg (by omega), if_neg (by omega)]
  · have h := inferTypesLoop_lines ps [] ((linesRaw ps).length + 1) []
      (by rw [linesRaw_length]; omega)
    simpa [inferTypes] using h
  · have hsafe : (min ((ps.length : Nat) : Int)
        (((List.replicate ps.length (3:Int)).length : Nat) : Int)).toNat = ps.length := by
      rw [List.length_replicate]
      omega
    simp only [legacyGeom]
    rw [hsafe]
    have h := legacyWalkLoop_lines ps [] ps.length 0 [] []
    simpa using h

/-- C8 witness: the inference rule at arity 5, the inference and walk results
on a concrete two-line buffer. -/
theorem polydata_lines_yield_no_triangles_witness :
    inferTypeOf 5 = 7 ∧ inferTypes [2,0,1,2,2,3] = some [3,3]
      ∧ legacyGeom (some 2) [3,3] [2,0,1,2,2,3] = ([], []) := by
  have T := polydata_lines_yield_no_triangles
  refine ⟨T.1.2.2.2.2 5 (by omega), ?_, ?_⟩
  · have h := T.2.1 [(0,1),(2,3)]
    simpa [linesRaw] using h
  · have h := T.2.2.1 [(0,1),(2,3)]
    simpa [linesRaw] using h

theorem legacyWalkLoop_len (types raw : List Int) :
    ∀ (n i cdi : Nat) (ind : List Int) (cid : List Nat),
      ind.length = 3 * cid.length →
      (legacyWalkLoop types raw n i cdi ind cid).1.length
        = 3 * (legacyWalkLoop types raw n i cdi ind cid).2.length := by
  intro n
  induction n with
  | zero => intro i cdi ind cid h; exact h
  | succ m ih =>
      intro i cdi ind cid h
      rw [legacyWalkLoop]
      by_cases hb : raw.length ≤ cdi
      · rw [if_pos hb]; exact h
      · rw [if_neg hb]
        apply ih
        rw [triangulateCell_length, List.length_append, List.length_replicate, h]
        ring

theorem legacyGeom_len (numCells : Option Int) (types raw : List Int) :
    (legacyGeom numCells types raw).2.length
      = (legacyGeom numCells types raw).1.length / 3 := by
  simp only [legacyGeom]
  cases numCells with
  | none =>
      show (legacyWalkLoop types raw 0 0 0 [] []).2.length
        = (legacyWalkLoop types raw 0 0 0 [] []).1.length / 3
      have hw := legacyWalkLoop_len types raw 0 0 0 [] [] (by simp)
      omega
  | some n =>
      show (legacyWalkLoop types raw (min n ((types.length : Nat) : Int)).toNat 0 0 [] []).2.length
        = (legacyWalkLoop types raw (min n ((types.length : Nat) : Int)).toNat 0 0 [] []).1.length / 3
      have hw := legacyWalkLoop_len types raw (min n ((types.length : Nat) : Int)).toNat
        0 0 [] [] (by simp)
      omega

/-- C1: after any decode — XML or legacy — the cell-ID map has exactly one
entry per emitted triangle, `len(cellIdMap) = len(indexBuffer) / 3`, because
each cell walk appends exactly `trianglesAdded` copies of the cell's sequential
index to the map. -/
theorem cellIdMap_matches_triangles :
    (∀ (numberOfCells : Int) (conn offsets types : Option (List Int)),
      (xmlGenIndices numberOfCells conn offsets types).2.length
        = (xmlGenIndices numberOfCells conn offsets types).1.length / 3) ∧
    (∀ (text : List Char) (r : LegacyResult), legacyParse text = some r →
      r.cellIdMap.length = r.indices.length / 3) := by
  constructor
  · intro numberOfCells conn offsets types
    cases conn with
    | none => cases offsets <;> cases types <;> simp [xmlGenIndices]
    | some c =>
    cases offsets with
    | none => cases types <;> simp [xmlGenIndices]
    | some o =>
    cases types with
    | none => simp [xmlGenIndices]
    | some t =>
        show (xmlWalkLoop c o t
            (min numberOfCells (min ((o.length : Nat) : Int) ((t.length : Nat) : Int))).toNat
            0 0 [] []).2.length
          = (xmlWalkLoop c o t
            (min numberOfCells (min ((o.length : Nat) : Int) ((t.length : Nat) : Int))).toNat
            0 0 [] []).1.length / 3
        have hw := xmlWalkLoop_len c o t
          (min numberOfCells (min ((o.length : Nat) : Int) ((t.length : Nat) : Int))).toNat
          0 0 [] [] (by simp)
        omega
  · intro text r h
    unfold legacyParse at h
    split at h
    · exact Option.noConfusion h
    · rename_i st hst
      split at h
      · exact Option.noConfusion h
      · rename_i ts hts
        injection h with h
        subst h
        exact legacyGeom_len _ ts st.cellDataRaw

/-- The single-triangle legacy scenario file of the specification. -/
def triSampleText : List Char :=
  ("POINTS 3 float\n0 0 0\n1 0 0\n0 1 0\nCELLS 1 4\n3 0 1 2\nCELL_TYPES 1\n5").data

def triSampleResult : LegacyResult := (legacyParse triSampleText).getD default

/-- C1 witness: a one-triangle XML walk and the one-triangle legacy scenario,
both concrete. -/
theorem cellIdMap_matches_triangles_witness :
    (xmlGenIndices 1 (some [0,1,2]) (some [3]) (some [5])).2.length
        = (xmlGenIndices 1 (some [0,1,2]) (some [3]) (some [5])).1.length / 3
    ∧ legacyParse triSampleText = some triSampleResult
    ∧ triSampleResult.cellIdMap.length = triSampleResult.indices.length / 3 := by
  refine ⟨cellIdMap_matches_triangles.1 1 (some [0,1,2]) (some [3]) (some [5]),
    by decide, ?_⟩
  exact cellIdMap_matches_triangles.2 triSampleText triSampleResult (by decide)

theorem scalarDataCore_fields (st : LState) (vals : List Int) (sub : LSub)
    (cs? : Option CurScalar)
    (hg : ∀ f ∈ st.pointFields ++ st.cellFields,
      f.min = f.data.minimum ∧ f.max = f.data.maximum) :
    ∀ f ∈ (scalarDataCore st vals sub cs?).pointFields
        ++ (scalarDataCore st vals sub cs?).cellFields,
      f.min = f.data.minimum ∧ f.max = f.data.maximum := by
  cases sub with
  | NONE => cases cs? <;> exact hg
  | SCALARS =>
      cases cs? with
      | none => exact hg
      | some cs =>
          simp only [scalarDataCore]
          split_ifs with hseal hpd
          · intro f hf
            simp only [List.mem_append, List.mem_singleton] at hf
            rcases hf with (hf | hf) | hf
            · exact hg f (by simp [hf])
            · subst hf
              constructor <;> simp [computeMinMax_eq]
            · exact hg f (by simp [hf])
          · intro f hf
            simp only [List.mem_append, List.mem_singleton] at hf
            rcases hf with hf | (hf | hf)
            · exact hg f (by simp [hf])
            · exact hg f (by simp [hf])
            · subst hf
              constructor <;> simp [computeMinMax_eq]
          · exact hg

theorem routeData_fields (st : LState) (vals : List Int)
    (hg : ∀ f ∈ st.pointFields ++ st.cellFields,
      f.min = f.data.minimum ∧ f.max = f.data.maximum) :
    ∀ f ∈ (routeData st vals).pointFields ++ (routeData st vals).cellFields,
      f.min = f.data.minimum ∧ f.max = f.data.maximum := by
  obtain ⟨sec, sub, np, nc, pts, pc, raw, ct, cs, pf, cf⟩ := st
  cases sec <;>
    first
      | exact hg
      | exact scalarDataCore_fields _ _ _ _ hg

theorem processLine_fields (st : LState) (line : List Char) (st2 : LState)
    (h : processLine st line = some st2)
    (hg : ∀ f ∈ st.pointFields ++ st.cellFields,
      f.min = f.data.minimum ∧ f.max = f.data.maximum) :
    ∀ f ∈ st2.pointFields ++ st2.cellFields,
      f.min = f.data.minimum ∧ f.max = f.data.maximum := by
  simp only [processLine] at h
  by_cases h0 : (trimChars line).isEmpty = true ∨ (trimChars line).headD ' ' = '#'
  · rw [if_pos h0] at h
    injection h with h
    subst h
    exact hg
  · rw [if_neg h0] at h
    by_cases h1 : ((splitWs (trimChars line)).headD []).map Char.toLower = "dataset".data
    · rw [if_pos h1] at h
      obtain ⟨a, ha, hb⟩ := Option.map_eq_some'.mp h
      subst hb
      exact hg
    · rw [if_neg h1] at h
      by_cases h2 : ((splitWs (trimChars line)).headD []).map Char.toLower = "points".data
      · rw [if_pos h2] at h
        obtain ⟨n, hn, hb⟩ := Option.bind_eq_some.mp h
        by_cases hneg : n < 0
        · rw [if_pos hneg] at hb
          exact Option.noConfusion hb
        · rw [if_neg hneg] at hb
          injection hb with hb
          subst hb
          simpa using hg
      · rw [if_neg h2] at h
        by_cases h3 : ((splitWs (trimChars line)).headD []).map Char.toLower = "cells".data
        · rw [if_pos h3] at h
          injection h with h
          subst h
          simpa using hg
        · rw [if_neg h3] at h
          by_cases h4 :
              ((splitWs (trimChars line)).headD []).map Char.toLower = "polygons".data
          · rw [if_pos h4] at h
            injection h with h
            subst h
            simpa using hg
          · rw [if_neg h4] at h
            by_cases h5 :
                ((splitWs (trimChars line)).headD []).map Char.toLower = "lines".data
            · rw [if_pos h5] at h
              injection h with h
              subst h
              simpa using hg
            · rw [if_neg h5] at h
              by_cases h6 : ((splitWs (trimChars line)).headD []).map Char.toLower
                  = "triangle_strips".data
              · rw [if_pos h6] at h
                injection h with h
                subst h
                simpa using hg
              · rw [if_neg h6] at h
                by_cases h7 : ((splitWs (trimChars line)).headD []).map Char.toLower
                    = "cell_types".data
                · rw [if_pos h7] at h
                  injection h with h
                  subst h
                  simpa using hg
                · rw [if_neg h7] at h
                  by_cases h8 : ((splitWs (trimChars line)).headD []).map Char.toLower
                      = "point_data".data
                  · rw [if_pos h8] at h
                    injection h with h
                    subst h
                    simpa using hg
                  · rw [if_neg h8] at h
                    by_cases h9 : ((splitWs (trimChars line)).headD []).map Char.toLower
                        = "cell_data".data
                    · rw [if_pos h9] at h
                      injection h with h
                      subst h
                      simpa using hg
                    · rw [if_neg h9] at h
                      by_cases h10 : ((splitWs (trimChars line)).headD []).map Char.toLower
                          = "scalars".data
                      · rw [if_pos h10] at h
                        injection h with h
                        subst h
                        simpa using hg
                      · rw [if_neg h10] at h
                        by_cases h11 : ((splitWs (trimChars line)).headD []).map Char.toLower
                            = "lookup_table".data
                        · rw [if_pos h11] at h
                          injection h with h
                          subst h
                          exact hg
                        · rw [if_neg h11] at h
                          injection h with h
                          subst h
                          exact routeData_fields st (parseNumbers (trimChars line)) hg

theorem foldlM_fields :
    ∀ (ls : List (List Char)) (st st2 : LState),
      ls.foldlM processLine st = some st2 →
      (∀ f ∈ st.pointFields ++ st.cellFields,
        f.min = f.data.minimum ∧ f.max = f.data.maximum) →
      ∀ f ∈ st2.pointFields ++ st2.cellFields,
        f.min = f.data.minimum ∧ f.max = f.data.maximum := by
  intro ls
  induction ls with
  | nil =>
      intro st st2 h hg
      simp only [List.foldlM_nil] at h
      injection h with h
      subst h
      exact hg
  | cons l rest ih =>
      intro st st2 h hg
      rw [List.foldlM_cons] at h
      cases hp : processLine st l with
      | none => rw [hp] at h; simp at h
      | some st1 =>
          rw [hp] at h
          simp only [Option.bind_eq_bind, Option.some_bind] at h
          exact ih st1 st2 h (processLine_fields st l st1 hp hg)

theorem xmlFieldStep_mem (acc : List ScalarFieldM)
    (a : List Char × Option Int × Option (List Int)) (f : ScalarFieldM)
    (hf : f ∈ xmlFieldStep acc a) :
    f ∈ acc ∨ (f.data ≠ [] ∧ f.min = f.data.minimum ∧ f.max = f.data.maximum) := by
  unfold xmlFieldStep at hf
  split_ifs at hf
  · split at hf
    · split_ifs at hf with hlen
      · simp only [List.mem_append, List.mem_singleton] at hf
        rcases hf with hf | rfl
        · exact Or.inl hf
        · refine Or.inr ⟨?_, by simp [computeMinMax_eq], by simp [computeMinMax_eq]⟩
          intro hnil
          rename_i arr _
          rw [show (⟨a.1, (computeMinMax arr).1, (computeMinMax arr).2, arr⟩ :
            ScalarFieldM).data = arr from rfl] at hnil
          subst hnil
          simp at hlen
      · exact Or.inl hf
    · exact Or.inl hf
  · exact Or.inl hf

theorem xmlFields_foldl (arrays : List (List Char × Option Int × Option (List Int))) :
    ∀ acc : List ScalarFieldM,
      (∀ f ∈ acc, f.data ≠ [] ∧ f.min = f.data.minimum ∧ f.max = f.data.maximum) →
      ∀ f ∈ arrays.foldl xmlFieldStep acc,
        f.data ≠ [] ∧ f.min = f.data.minimum ∧ f.max = f.data.maximum := by
  induction arrays with
  | nil => intro acc hacc f hf; exact hacc f hf
  | cons a rest ih =>
      intro acc hacc
      rw [List.foldl_cons]
      refine ih (xmlFieldStep acc a) ?_
      intro f hf
      rcases xmlFieldStep_mem acc a f hf with hmem | hgood
      · exact hacc f hmem
      · exact hgood

/-- C7 (amended): every scalar field emitted by either decoder carries as min
and max exactly the running minimum and maximum of its data sequence (the true
least and greatest elements whenever the data is nonempty, ties included); the
XML decoder never emits a field with an empty data sequence, but the legacy
decoder can seal one when the governing count times components is zero, so the
"no empty field" clause of the claim holds only for the XML decoder. -/
theorem scalar_fields_extrema :
    (∀ (text : List Char) (r : LegacyResult), legacyParse text = some r →
      ∀ f ∈ r.pointData ++ r.cellData,
        f.min = f.data.minimum ∧ f.max = f.data.maximum) ∧
    (∀ arrays : List (List Char × Option Int × Option (List Int)),
      ∀ f ∈ xmlFields arrays,
        f.data ≠ [] ∧ f.min = f.data.minimum ∧ f.max = f.data.maximum) := by
  constructor
  · intro text r h
    unfold legacyParse at h
    split at h
    · exact Option.noConfusion h
    · rename_i st hst
      split at h
      · exact Option.noConfusion h
      · rename_i ts hts
        injection h with h
        subst h
        intro f hf
        exact foldlM_fields _ initLState st hst (by simp [initLState]) f hf
  · intro arrays
    exact xmlFields_foldl arrays [] (by simp)

/-- The legacy input of the C7 counterexample: a POINT_DATA section with no
POINTS section (point count 0), one SCALARS header, and one junk line. -/
def emptyFieldText : List Char := ("POINT_DATA 1\nSCALARS t float\nx").data

/-- C7 counterexample: on `emptyFieldText` the legacy decode succeeds and emits
one point scalar field whose data sequence is empty (the seal condition
`count ≥ targetCount * components` is `0 ≥ 0`), refuting the claim's "no field
with an empty data sequence is ever emitted". -/
theorem legacy_emits_empty_field :
    (legacyParse emptyFieldText).map (fun r => r.pointData.map (fun f => f.data))
      = some [[]] := by
  decide

/-- A legacy file with one sealed two-value point field, for the C7 witness. -/
def mmSampleText : List Char :=
  ("POINTS 2 float\n0 0 0\n1 0 0\nPOINT_DATA 2\nSCALARS temp float 1\nLOOKUP_TABLE default\n5 -3").data

def mmSampleResult : LegacyResult := (legacyParse mmSampleText).getD default

/-- C7 witness: a concrete legacy decode with one sealed field whose min/max
are the extrema of its data, and a concrete XML field list. -/
theorem scalar_fields_extrema_witness :
    legacyParse mmSampleText = some mmSampleResult
    ∧ (vAt mmSampleResult.pointData 0).min
        = (vAt mmSampleResult.pointData 0).data.minimum
    ∧ (vAt mmSampleResult.pointData 0).max
        = (vAt mmSampleResult.pointData 0).data.maximum
    ∧ (vAt (xmlFields [("a".data, some 1, some [4,1,9])]) 0).data ≠ []
    ∧ (vAt (xmlFields [("a".data, some 1, some [4,1,9])]) 0).min
        = (vAt (xmlFields [("a".data, some 1, some [4,1,9])]) 0).data.minimum := by
  have h1 := scalar_fields_extrema.1 mmSampleText mmSampleResult (by decide)
    (vAt mmSampleResult.pointData 0) (by decide)
  have h2 := scalar_fields_extrema.2 [("a".data, some 1, some [4,1,9])]
    (vAt (xmlFields [("a".data, some 1, some [4,1,9])]) 0) (by decide)
  exact ⟨by decide, h1.1, h1.2, h2.1, h2.2.1⟩
